import Mathlib

/-!
Verification of the archive-extraction subsystem of the
terraform-provider-utilities repository, together with the path_exists
function and the local-directory Delete guard.

The definitions below are a shallow embedding of the Go source:

* Path arithmetic (filepathClean, filepathJoin, filepathDir) ports the
  lexical algorithms of Go path/filepath for Unix paths.
* FS models the POSIX filesystem state the provider manipulates: a set of
  directory paths and a set of (file path, content) pairs, both as lists.
* extractZipEntry / extractZipFile / validateAndExtractZip embed
  resource_extract_zip.go (entry extraction, archive walk, destination
  handling).  Cancellation checks are modelled as never firing (all claims
  under study are about uncancelled runs), and a successfully opened
  archive is represented by its entry list.
* createExtractZip / updateExtractZip / deleteCreatedZip embed the
  Create / Update / Delete resource operations; fallible external steps
  (hashing the source file, opening the archive, fetching a URL) are
  oracle parameters of type Except.
-/

namespace Utilities

/-- Elements of Go strings, as lists of characters.  true iff the first
list is a prefix of the second (strings.HasPrefix). -/
def listPrefixOf : List Char → List Char → Bool
  | [], _ => true
  | _ :: _, [] => false
  | a :: as, b :: bs => a == b && listPrefixOf as bs

/-- Split a character list on the path separator, dropping empty segments,
as Go filepath.Clean does while scanning. -/
def splitSlash : List Char → List Char → List (List Char)
  | [], cur => if cur.isEmpty then [] else [cur.reverse]
  | c :: cs, cur =>
    if c == '/' then
      if cur.isEmpty then splitSlash cs [] else cur.reverse :: splitSlash cs []
    else splitSlash cs (c :: cur)

/-- The element-stack loop of Go filepath.Clean: drop "." segments, let
".." pop a previous segment (or survive when unrooted), keep the rest. -/
def cleanLoop (rooted : Bool) : List (List Char) → List (List Char) → List (List Char)
  | stack, [] => stack.reverse
  | stack, s :: rest =>
    if s == ['.'] then cleanLoop rooted stack rest
    else if s == ['.', '.'] then
      match stack with
      | [] => if rooted then cleanLoop rooted [] rest else cleanLoop rooted [s] rest
      | t :: stack₂ =>
        if t == ['.', '.'] then cleanLoop rooted (s :: stack) rest
        else cleanLoop rooted stack₂ rest
    else cleanLoop rooted (s :: stack) rest

/-- Join segments back with the path separator. -/
def joinWithSlash : List (List Char) → List Char
  | [] => []
  | [s] => s
  | s :: rest => s ++ '/' :: joinWithSlash rest

/-- Go filepath.Clean for Unix paths (lexical shortest-equivalent path). -/
def filepathClean (p : String) : String :=
  if p = "" then "."
  else
    let rooted := p.data.head? == some '/'
    let segs := cleanLoop rooted [] (splitSlash p.data [])
    let body := joinWithSlash segs
    if rooted then String.mk ('/' :: body)
    else if body.isEmpty then "." else String.mk body

/-- Go filepath.Join on two elements: skip empty elements, join with the
separator, Clean the result. -/
def filepathJoin (a b : String) : String :=
  if a = "" && b = "" then ""
  else if a = "" then filepathClean b
  else if b = "" then filepathClean a
  else filepathClean (a ++ "/" ++ b)

/-- Everything up to and including the last path separator. -/
def upToLastSlash (cs : List Char) : List Char :=
  (cs.reverse.dropWhile (fun c => !(c == '/'))).reverse

/-- Go filepath.Dir: Clean of the prefix up to the final separator. -/
def filepathDir (p : String) : String :=
  filepathClean (String.mk (upToLastSlash p.data))

/-- true iff the ZIP entry name denotes a directory (trailing slash),
as the source tests with strings.HasSuffix(file.Name, slash). -/
def strEndsWithSlash (s : String) : Bool :=
  s.data.reverse.head? == some '/'

/-- true iff q is strictly below directory p (p plus separator is a
prefix of q). -/
def isUnder (p q : String) : Bool :=
  listPrefixOf (p.data ++ ['/']) q.data

/-- Filesystem state: the set of directory paths and the set of regular
files with their contents.  A POSIX-like fs as assumed by the source. -/
structure FS where
  dirs : List String
  files : List (String × String)
deriving Repr, DecidableEq

/-- os.Stat succeeds: the path is present as a directory or a file. -/
def pathPresent (fs : FS) (p : String) : Bool :=
  decide (p ∈ fs.dirs) || decide (p ∈ fs.files.map Prod.fst)

/-- The cumulative-prefix helper for mkdirAll. -/
def cumulAux (cur : String) : List String → List String
  | [] => []
  | s :: rest =>
    let nxt := cur ++ "/" ++ s
    nxt :: cumulAux nxt rest

/-- Path segments of a (cleaned) path. -/
def pathSegs (p : String) : List String :=
  (splitSlash p.data []).map String.mk

/-- All cumulative prefixes of a path, shortest first; the prefixes
os.MkdirAll visits while recursing from the root. -/
def ancestors (p : String) : List String :=
  match pathSegs p, p.data.head? == some '/' with
  | [], _ => []
  | s :: rest, true => ("/" ++ s) :: cumulAux ("/" ++ s) rest
  | s :: rest, false => s :: cumulAux s rest

/-- os.MkdirAll on the directory set: no-op when the directory exists,
otherwise create every missing prefix from the root down. -/
def mkdirAllDirs (dirs : List String) (p : String) : List String :=
  if decide (p ∈ dirs) then dirs
  else (ancestors p).foldl (fun ds a => if decide (a ∈ ds) then ds else ds ++ [a]) dirs

/-- os.MkdirAll lifted to the filesystem state. -/
def mkdirAll (fs : FS) (p : String) : FS :=
  { fs with dirs := mkdirAllDirs fs.dirs p }

/-- os.Create followed by io.Copy: create or truncate the file at p and
write the content. -/
def createFile (fs : FS) (p : String) (content : String) : FS :=
  { fs with files := fs.files.filter (fun pr => !(pr.1 == p)) ++ [(p, content)] }

/-- Remove a file entry (used for the deferred temp-file cleanup). -/
def removeFileEntry (fs : FS) (p : String) : FS :=
  { fs with files := fs.files.filter (fun pr => !(pr.1 == p)) }

/-- One entry of a ZIP archive: its stored name and (for regular files)
its byte content. -/
structure ZipEntry where
  name : String
  content : String
deriving Repr, DecidableEq

/-- Embedding of extractZipEntry (resource_extract_zip.go): join the
destination with the stored entry name; directory entries run MkdirAll and
are recorded unless the resolved path equals the destination; file entries
run MkdirAll on their parent, then create the file and record its path.
No traversal check is present in the source. -/
def extractZipEntry (e : ZipEntry) (destination : String) (fs : FS)
    (created : List String) : FS × List String :=
  let destPath := filepathJoin destination e.name
  if strEndsWithSlash e.name then
    let fs₁ := mkdirAll fs destPath
    if destPath = destination then (fs₁, created) else (fs₁, created ++ [destPath])
  else
    let dirPath := filepathDir destPath
    let fs₁ := mkdirAll fs dirPath
    let fs₂ := createFile fs₁ destPath e.content
    (fs₂, created ++ [destPath])

/-- Embedding of the entry loop of extractZipFile: process the archive
entries in order, threading the filesystem and the created-paths list. -/
def extractEntries (es : List ZipEntry) (destination : String) (fs : FS)
    (created : List String) : FS × List String :=
  match es with
  | [] => (fs, created)
  | e :: rest =>
    let r := extractZipEntry e destination fs created
    extractEntries rest destination r.1 r.2

/-- Embedding of validateAndExtractZip for an already-opened archive: if
the destination is absent, create it and set destinationCreated; then run
the entry loop.  Returns (filesystem, createdFiles, destinationCreated). -/
def validateAndExtractZip (es : List ZipEntry) (destination : String) (fs : FS) :
    FS × List String × Bool :=
  let step :=
    if pathPresent fs destination then (fs, false)
    else (mkdirAll fs destination, true)
  let r := extractEntries es destination step.1 []
  (r.1, r.2, step.2)

/-- Outcome of one os.Remove call. -/
inductive RmOutcome where
  | ok
  | notExist
  | otherErr
deriving Repr, DecidableEq

/-- os.Remove: deletes a file, or an empty directory; an absent path gives
the not-exist error; a non-empty directory gives another error. -/
def removeResult (fs : FS) (p : String) : FS × RmOutcome :=
  if decide (p ∈ fs.files.map Prod.fst) then
    ({ fs with files := fs.files.filter (fun pr => !(pr.1 == p)) }, .ok)
  else if decide (p ∈ fs.dirs) then
    if (fs.dirs ++ fs.files.map Prod.fst).any (fun q => isUnder p q) then
      (fs, .otherErr)
    else ({ fs with dirs := fs.dirs.filter (fun q => !(q == p)) }, .ok)
  else (fs, .notExist)

/-- One iteration of the Delete loop of resource_extract_zip.go: remove
the path; a failure that is not os.IsNotExist appends a warning; nothing
is fatal. -/
def removeStep (s : FS × List String) (p : String) : FS × List String :=
  match removeResult s.1 p with
  | (fs₁, .ok) => (fs₁, s.2)
  | (fs₁, .notExist) => (fs₁, s.2)
  | (fs₁, .otherErr) => (fs₁, s.2 ++ [p])

/-- The Delete loop: iterate createdFiles from the last index down to 0
(reverse creation order), collecting warnings. -/
def deleteCreatedZip (created : List String) (fs : FS) : FS × List String :=
  created.reverse.foldl removeStep (fs, [])

/-- Result of the Delete resource operation. -/
structure DeleteResult where
  fsAfter : FS
  warnings : List String
  removedFromState : Bool
deriving Repr, DecidableEq

/-- Embedding of Delete (resource_extract_zip.go): run the removal loop,
then unconditionally remove the resource from state. -/
def deleteExtractZipResource (created : List String) (fs : FS) : DeleteResult :=
  let r := deleteCreatedZip created fs
  ⟨r.1, r.2, true⟩

/-- The persisted state record of utilities_extract_zip (struct
ExtractZip): source, url, destination, created_files, file_hash,
destination_created. -/
structure ExtractZipRec where
  source : Option String
  url : Option String
  destination : String
  createdFiles : List String
  fileHash : String
  destinationCreated : Bool
deriving Repr, DecidableEq

/-- Oracles for the fallible external steps of Create: hashing the local
source file (calculateFileHash), opening the local archive
(zip.OpenReader), and fetching plus opening the URL archive. -/
structure CreateEnv where
  hashResult : Except Unit String
  zipResult : Except Unit (List ZipEntry)
  urlFetch : Except Unit (List ZipEntry)

/-- Embedding of Create (resource_extract_zip.go): hash the source when a
local source is set (an error aborts with no state written); extract from
the local source, else from the URL, else do nothing; on success persist
the full record.  Null attributes read as the empty string via
ValueString. -/
def createExtractZip (source url : Option String) (destination : String)
    (env : CreateEnv) (fs : FS) : Option ExtractZipRec × FS :=
  let src := source.getD ""
  let u := url.getD ""
  match (if src ≠ "" then env.hashResult else .ok "") with
  | .error _ => (none, fs)
  | .ok fileHash =>
    let extracted : Except Unit (List String × Bool × FS) :=
      if src ≠ "" then
        match env.zipResult with
        | .error e => .error e
        | .ok entries =>
          let r := validateAndExtractZip entries destination fs
          .ok (r.2.1, r.2.2, r.1)
      else if u ≠ "" then
        match env.urlFetch with
        | .error e => .error e
        | .ok entries =>
          let r := validateAndExtractZip entries destination fs
          .ok (r.2.1, r.2.2, r.1)
      else .ok ([], false, fs)
    match extracted with
    | .error _ => (none, fs)
    | .ok r => (some ⟨source, url, destination, r.1, fileHash, r.2.1⟩, r.2.2)

/-- Embedding of Update (resource_extract_zip.go).  Faithful to the
source: newFileHash starts empty and calculateFileHash runs only when the
plan's url attribute is non-null (the code comment announces the
opposite); when the stored file_hash equals newFileHash the prior state is
persisted unchanged; otherwise validateAndExtractZip reruns and the new
record is persisted. -/
def updateExtractZip (planSource planUrl : Option String) (planDest : String)
    (stateRec : ExtractZipRec) (env : CreateEnv) (fs : FS) :
    Option ExtractZipRec × FS :=
  match (if planUrl.isSome then env.hashResult else .ok "") with
  | .error _ => (none, fs)
  | .ok newFileHash =>
    if stateRec.fileHash = newFileHash then (some stateRec, fs)
    else
      match env.zipResult with
      | .error _ => (none, fs)
      | .ok entries =>
        let r := validateAndExtractZip entries planDest fs
        (some ⟨planSource, planUrl, planDest, r.2.1, newFileHash, r.2.2⟩, r.1)

/-- The outcome of the HTTP GET issued by downloadZipFile. -/
inductive HttpResult where
  | transportError
  | response (status : Nat) (body : String)
deriving Repr, DecidableEq

/-- Embedding of downloadZipFile (resource_extract_zip.go): os.CreateTemp
creates the temporary file first; a transport error or a non-200 status
returns an error with the empty path — without removing the temporary
file; on 200 the body is written and the temp path returned. -/
def downloadZipFile (fetch : HttpResult) (tmpName : String) (fs : FS) :
    Except Unit String × FS :=
  let fs₁ := createFile fs tmpName ""
  match fetch with
  | .transportError => (.error (), fs₁)
  | .response status body =>
    if status = 200 then (.ok tmpName, createFile fs₁ tmpName body)
    else (.error (), fs₁)

/-- Embedding of validateAndExtractZipFromURL: download to a temp file (a
failure returns before the deferred os.Remove is registered); create the
destination when absent; open and extract the archive; the deferred
os.Remove deletes the temp file on both the success and the
open-failure paths. -/
def validateAndExtractZipFromURL (fetch : HttpResult) (tmpName : String)
    (parseZip : String → Except Unit (List ZipEntry)) (destination : String)
    (fs : FS) : Except Unit (List String × Bool) × FS :=
  match downloadZipFile fetch tmpName fs with
  | (.error e, fs₁) => (.error e, fs₁)
  | (.ok tmp, fs₁) =>
    let step :=
      if pathPresent fs₁ destination then (fs₁, false)
      else (mkdirAll fs₁ destination, true)
    match parseZip ((step.1.files.lookup tmp).getD "") with
    | .error e => (.error e, removeFileEntry step.1 tmp)
    | .ok entries =>
      let r := extractEntries entries destination step.1 []
      (.ok (r.2, step.2), removeFileEntry r.1 tmp)

/-- Outcome of os.Stat as seen by PathExistFunction.Run. -/
inductive StatOutcome where
  | ok
  | errNotExist
  | errOther
deriving Repr, DecidableEq

/-- Embedding of PathExistFunction.Run: exists is err == nil or not
os.IsNotExist(err) — any Stat failure other than not-exist reports the
path as existing. -/
def pathExistsRun : StatOutcome → Bool
  | .ok => true
  | .errNotExist => false
  | .errOther => true

/-- The hardcoded denylist of the local-directory resource (part_007). -/
def protectedPaths : List String :=
  ["/", "/etc", "/usr", "/var/lib", "/bin", "/sbin", "/boot", "/proc",
   "/sys", "/dev", "/lib", "/opt", "/tmp", "/var/run", "/var/lock",
   "/var/cache", "/var/log", "/home", "/root", "/mnt", "/media", "/srv",
   "/var/spool", "/var/tmp", "/libexec"]

/-- Embedding of isProtectedPath (part_007): the path equals a protected
entry, or path plus slash has protected plus slash as a prefix. -/
def isProtectedPath (p : String) : Bool :=
  protectedPaths.any
    (fun prot => p == prot || listPrefixOf (prot.data ++ ['/']) (p.data ++ ['/']))

/-- What os.Stat reported for the directory path in Delete
(resource_local_directory, part_007). -/
inductive DirStat where
  | notExist
  | statError
  | notDirectory
  | isDirectory
deriving Repr, DecidableEq

/-- Result of the local-directory Delete operation. -/
structure LocalDirDeleteResult where
  removedFromDisk : Bool
  removedFromState : Bool
  fatalError : Bool
deriving Repr, DecidableEq

/-- Embedding of Delete (resource_local_directory, part_007), on a
non-Windows platform: an absent path removes the resource from state; a
Stat error or a non-directory is a fatal error; a protected path returns
early with neither a disk removal nor a state removal; otherwise
os.RemoveAll runs when force or managed is set, and state is removed. -/
def localDirectoryDelete (path : String) (force managed : Bool)
    (stat : DirStat) (removeAllOk : Bool) : LocalDirDeleteResult :=
  match stat with
  | .notExist => ⟨false, true, false⟩
  | .statError => ⟨false, false, true⟩
  | .notDirectory => ⟨false, false, true⟩
  | .isDirectory =>
    if isProtectedPath path then ⟨false, false, false⟩
    else if force then
      if removeAllOk then ⟨true, true, false⟩ else ⟨false, false, true⟩
    else if managed then
      if removeAllOk then ⟨true, true, false⟩ else ⟨false, false, true⟩
    else ⟨false, true, false⟩

/-- The schema-level conflict validation of utilities_extract_zip:
stringvalidator.ConflictsWith on source and url fires exactly when both
attributes are set.  No validator requires at least one of them. -/
def extractZipConflictErrors (source url : Option String) : Bool :=
  source.isSome && url.isSome

/-- Modelled from the claim's words: p lies beneath prot when p differs
from prot and sits below it in the path hierarchy (prot plus a trailing
separator is a prefix of p; the root already ends in its separator). -/
def liesBeneathSpec (p prot : String) : Bool :=
  !(p == prot) &&
    listPrefixOf (if strEndsWithSlash prot then prot.data else prot.data ++ ['/'])
      p.data

/-- The resolved destination paths of the directory entries of an
archive, in archive order. -/
def dirDest (d : String) : List ZipEntry → List String
  | [] => []
  | e :: rest =>
    if strEndsWithSlash e.name then filepathJoin d e.name :: dirDest d rest
    else dirDest d rest

/-- The resolved destination paths and contents of the file entries of an
archive, in archive order. -/
def fileDest (d : String) : List ZipEntry → List (String × String)
  | [] => []
  | e :: rest =>
    if strEndsWithSlash e.name then fileDest d rest
    else (filepathJoin d e.name, e.content) :: fileDest d rest

/-- The resolved destination paths of all entries, in archive order —
exactly what extraction appends to createdFiles under entriesOk below. -/
def allDest (d : String) : List ZipEntry → List String
  | [] => []
  | e :: rest => filepathJoin d e.name :: allDest d rest

/-- Well-formedness of an archive against destination d and initial
filesystem fs₀, scanning entries in order while accumulating the
directory paths (prevD) and file pairs (prevF) created by earlier
entries.  A directory entry must be fresh, must be the only path its
MkdirAll creates (its parent chain already exists), must have nothing
beneath it yet, and must differ from the destination root; a file entry
must be fresh and its parent chain must already exist entirely.  This is
the decidable hypothesis class of the amended round-trip claim: each
entry creates exactly its own resolved path. -/
def entriesOk (fs₀ : FS) (d : String) :
    List String → List (String × String) → List ZipEntry → Bool
  | _, _, [] => true
  | prevD, prevF, e :: rest =>
    let p := filepathJoin d e.name
    let dirs := fs₀.dirs ++ prevD
    let fnames := (fs₀.files ++ prevF).map Prod.fst
    if strEndsWithSlash e.name then
      decide (¬ p ∈ dirs) &&
      decide (mkdirAllDirs dirs p = dirs ++ [p]) &&
      decide (¬ p ∈ fnames) &&
      decide (∀ q ∈ dirs ++ fnames, isUnder p q = false) &&
      decide (p ≠ d) &&
      entriesOk fs₀ d (prevD ++ [p]) prevF rest
    else
      decide (mkdirAllDirs dirs (filepathDir p) = dirs) &&
      decide (¬ p ∈ dirs) &&
      decide (¬ p ∈ fnames) &&
      entriesOk fs₀ d prevD (prevF ++ [(p, e.content)]) rest

/-- A prefix of a list is a prefix of any extension of that list. -/
theorem listPrefixOf_append_right :
    ∀ (l m k : List Char), listPrefixOf l m = true → listPrefixOf l (m ++ k) = true := by
  intro l
  induction l with
  | nil => intro m k _; rfl
  | cons a as ih =>
    intro m k h
    cases m with
    | nil => simp [listPrefixOf] at h
    | cons b bs =>
      simp [listPrefixOf] at h ⊢
      exact ⟨h.1, ih bs k h.2⟩

/-- C1: the source has no traversal guard — extracting the entry named
dot-dot-slash evil.txt into /tmp/x writes /tmp/evil.txt, a path outside
the destination, records it in createdFiles, and reports no
UnsafeEntryPath error; the claim requires rejection with zero writes. -/
theorem c1_traversal_unchecked :
    extractZipEntry ⟨"../evil.txt", "pwned"⟩ "/tmp/x" ⟨["/", "/tmp", "/tmp/x"], []⟩ []
      = (⟨["/", "/tmp", "/tmp/x"], [("/tmp/evil.txt", "pwned")]⟩, ["/tmp/evil.txt"])
  ∧ isUnder "/tmp/x" "/tmp/evil.txt" = false := by
  decide

/-- C2: Update with a local source (url null) and an unchanged source file
(the hash oracle would return the stored value h1) nevertheless skips the
recomputation, compares h1 with the empty string, and re-extracts: the
filesystem is mutated and a record with an empty file_hash replaces the
prior one.  The recomputation condition in the source is inverted. -/
theorem c2_update_hash_inverted :
    updateExtractZip (some "/tmp/a.zip") none "/tmp/x"
      ⟨some "/tmp/a.zip", none, "/tmp/x", ["/tmp/x/f.txt"], "h1", false⟩
      ⟨.ok "h1", .ok [⟨"f.txt", "new"⟩], .error ()⟩
      ⟨["/", "/tmp", "/tmp/x"], []⟩
    = (some ⟨some "/tmp/a.zip", none, "/tmp/x", ["/tmp/x/f.txt"], "", false⟩,
       ⟨["/", "/tmp", "/tmp/x"], [("/tmp/x/f.txt", "new")]⟩) := by
  decide

/-- C3 counterexample: an archive whose only entry is a/b.txt (no
directory entry for a) extracted into existing /tmp/x records only the
file path; the directory /tmp/x/a created implicitly for the parent is
not in createdPaths, so deleting via createdPaths leaves /tmp/x/a behind
and the destination is not as it was before extraction. -/
theorem c3_roundtrip_counterexample :
    (validateAndExtractZip [⟨"a/b.txt", "hi"⟩] "/tmp/x"
        ⟨["/", "/tmp", "/tmp/x"], []⟩).2.1 = ["/tmp/x/a/b.txt"]
  ∧ (deleteCreatedZip
        (validateAndExtractZip [⟨"a/b.txt", "hi"⟩] "/tmp/x"
          ⟨["/", "/tmp", "/tmp/x"], []⟩).2.1
        (validateAndExtractZip [⟨"a/b.txt", "hi"⟩] "/tmp/x"
          ⟨["/", "/tmp", "/tmp/x"], []⟩).1).1
      = ⟨["/", "/tmp", "/tmp/x", "/tmp/x/a"], []⟩
  ∧ ¬ ("/tmp/x/a" ∈ (⟨["/", "/tmp", "/tmp/x"], []⟩ : FS).dirs) := by
  decide

/-- C4: a GET answered with HTTP 404 makes downloadZipFile fail after
os.CreateTemp already created the temporary file; the function returns
without removing it and the caller returns before the deferred remove is
registered, so the temp file remains on disk.  In contrast, when the
download succeeds and the archive then fails to open, the deferred remove
does delete the temp file. -/
theorem c4_temp_file_leak :
    validateAndExtractZipFromURL (.response 404 "") "/tmp/dl.zip"
      (fun _ => .error ()) "/tmp/x" ⟨["/", "/tmp"], []⟩
      = (.error (), ⟨["/", "/tmp"], [("/tmp/dl.zip", "")]⟩)
  ∧ pathPresent ⟨["/", "/tmp"], [("/tmp/dl.zip", "")]⟩ "/tmp/dl.zip" = true
  ∧ pathPresent
      (validateAndExtractZipFromURL (.response 200 "zipbytes") "/tmp/dl.zip"
        (fun _ => .error ()) "/tmp/x" ⟨["/", "/tmp"], []⟩).2
      "/tmp/dl.zip" = false :=
  ⟨rfl, rfl, rfl⟩

/-- C5: Delete always removes the resource from state; removing an absent
path produces no warning and no error; a removal that fails for another
reason (here a non-empty directory) appends a warning and is not fatal;
and the loop processes createdFiles in reverse creation order (the
last-created path is removed first). -/
theorem c5_delete_behavior :
    (∀ created fs, (deleteExtractZipResource created fs).removedFromState = true)
  ∧ (∀ fs p ws, pathPresent fs p = false → removeStep (fs, ws) p = (fs, ws))
  ∧ (∀ fs p ws, (removeResult fs p).2 = RmOutcome.otherErr →
      removeStep (fs, ws) p = (fs, ws ++ [p]))
  ∧ (∀ created p fs, deleteCreatedZip (created ++ [p]) fs
      = created.reverse.foldl removeStep (removeStep (fs, []) p)) := by
  refine ⟨fun created fs => rfl, ?_, ?_, ?_⟩
  · intro fs p ws h
    simp only [pathPresent, Bool.or_eq_false_iff, decide_eq_false_iff_not] at h
    simp [removeStep, removeResult, h.1, h.2]
  · intro fs p ws h
    by_cases hA : p ∈ fs.files.map Prod.fst
    · simp [removeResult, hA] at h
    · by_cases hB : p ∈ fs.dirs
      · by_cases hC : (fs.dirs ++ fs.files.map Prod.fst).any (fun q => isUnder p q) = true
        · simp [removeStep, removeResult, hA, hB, hC]
        · simp [removeResult, hA, hB, hC] at h
      · simp [removeResult, hA, hB] at h
  · intro created p fs
    simp [deleteCreatedZip, List.reverse_append]

/-- C5 witness: both hypothesis-bearing conjuncts at concrete inputs — an
absent path is silently skipped; a non-empty directory yields a warning. -/
theorem c5_delete_witness :
    removeStep (⟨["/"], []⟩, []) "/absent" = (⟨["/"], []⟩, [])
  ∧ removeStep (⟨["/", "/d", "/d/sub"], []⟩, []) "/d"
      = (⟨["/", "/d", "/d/sub"], []⟩, ["/d"]) :=
  ⟨c5_delete_behavior.2.1 _ _ _ (by decide), c5_delete_behavior.2.2.1 _ _ _ (by decide)⟩

/-- C6: Create persists no record when hashing the local source fails,
when opening the local archive fails, or when the URL fetch fails; when it
does persist a record, the record carries the planned source, url and
destination — the state transition is all-or-nothing. -/
theorem c6_create_all_or_nothing (s u : Option String) (d : String)
    (env : CreateEnv) (fs : FS) :
    (s.getD "" ≠ "" → env.hashResult = .error () →
      (createExtractZip s u d env fs).1 = none)
  ∧ (∀ h, s.getD "" ≠ "" → env.hashResult = .ok h → env.zipResult = .error () →
      (createExtractZip s u d env fs).1 = none)
  ∧ (s.getD "" = "" → u.getD "" ≠ "" → env.urlFetch = .error () →
      (createExtractZip s u d env fs).1 = none)
  ∧ (∀ r, (createExtractZip s u d env fs).1 = some r →
      r.source = s ∧ r.url = u ∧ r.destination = d) := by
  refine ⟨?_, ?_, ?_, ?_⟩
  · intro h1 h2
    simp [createExtractZip, h1, h2]
  · intro h h1 h2 h3
    simp [createExtractZip, h1, h2, h3]
  · intro h1 h2 h3
    simp [createExtractZip, h1, h2, h3]
  · intro r hr
    by_cases hs : s.getD "" = ""
    · by_cases hu : u.getD "" = ""
      · simp [createExtractZip, hs, hu] at hr
        subst hr
        exact ⟨rfl, rfl, rfl⟩
      · rcases hf : env.urlFetch with e | entries
        · simp [createExtractZip, hs, hu, hf] at hr
        · simp [createExtractZip, hs, hu, hf] at hr
          subst hr
          exact ⟨rfl, rfl, rfl⟩
    · rcases hh : env.hashResult with e | hv
      · simp [createExtractZip, hs, hh] at hr
      · rcases hz : env.zipResult with e | entries
        · simp [createExtractZip, hs, hh, hz] at hr
        · simp [createExtractZip, hs, hh, hz] at hr
          subst hr
          exact ⟨rfl, rfl, rfl⟩

/-- C6 witness: the three failure modes at concrete inputs all leave the
state empty. -/
theorem c6_create_witness :
    (createExtractZip (some "/s.zip") none "/d"
      ⟨.error (), .ok [], .ok []⟩ ⟨["/"], []⟩).1 = none
  ∧ (createExtractZip (some "/s.zip") none "/d"
      ⟨.ok "h", .error (), .ok []⟩ ⟨["/"], []⟩).1 = none
  ∧ (createExtractZip none (some "http://h/a.zip") "/d"
      ⟨.ok "h", .ok [], .error ()⟩ ⟨["/"], []⟩).1 = none :=
  ⟨(c6_create_all_or_nothing _ _ _ _ _).1 (by decide) rfl,
   (c6_create_all_or_nothing _ _ _ _ _).2.1 "h" (by decide) rfl rfl,
   (c6_create_all_or_nothing _ _ _ _ _).2.2.1 rfl (by decide) rfl⟩

/-- C7: extracting the archive with entries a/ and a/b.txt (content hi)
into the absent destination /tmp/x yields createdFiles
[/tmp/x/a, /tmp/x/a/b.txt] in order, destination_created true, and the
file /tmp/x/a/b.txt with content hi; and in general a directory entry
whose resolved path equals the destination root is never appended to
createdFiles. -/
theorem c7_extract_scenario :
    validateAndExtractZip [⟨"a/", ""⟩, ⟨"a/b.txt", "hi"⟩] "/tmp/x" ⟨["/", "/tmp"], []⟩
      = (⟨["/", "/tmp", "/tmp/x", "/tmp/x/a"], [("/tmp/x/a/b.txt", "hi")]⟩,
         ["/tmp/x/a", "/tmp/x/a/b.txt"], true)
  ∧ (∀ (e : ZipEntry) (d : String) (fs : FS) (created : List String),
      strEndsWithSlash e.name = true → filepathJoin d e.name = d →
      (extractZipEntry e d fs created).2 = created) := by
  constructor
  · decide
  · intro e d fs created h1 h2
    simp [extractZipEntry, h1, h2]

/-- C7 witness: the root-entry conjunct at the concrete entry named
dot-slash, which joins back to the destination root. -/
theorem c7_extract_witness :
    (extractZipEntry ⟨"./", ""⟩ "/tmp/x" ⟨["/", "/tmp", "/tmp/x"], []⟩
      ["/tmp/x/a"]).2 = ["/tmp/x/a"] :=
  c7_extract_scenario.2 ⟨"./", ""⟩ "/tmp/x" _ _ (by decide) (by decide)

/-- C8 counterexample: a configuration with neither source nor url set
passes validation (ConflictsWith only fires when both are set), and Create
then persists a record with no created files — the oracles for hashing,
archive opening and URL fetching are all erroring, so no I/O was even
attempted; the claim requires rejection. -/
theorem c8_counterexample :
    extractZipConflictErrors none none = false
  ∧ (createExtractZip none none "/tmp/x" ⟨.error (), .error (), .error ()⟩
      ⟨["/", "/tmp"], []⟩).1 = some ⟨none, none, "/tmp/x", [], "", false⟩
  ∧ (createExtractZip none none "/tmp/x" ⟨.error (), .error (), .error ()⟩
      ⟨["/", "/tmp"], []⟩).2 = ⟨["/", "/tmp"], []⟩ := by
  decide

/-- C8 amended: supplying both source and url is rejected as a
configuration error before any I/O; supplying neither is accepted —
validation passes and Create persists an empty record, touching neither
the filesystem nor any of the fallible external steps. -/
theorem c8_exactly_one_amended :
    (∀ a b : String, extractZipConflictErrors (some a) (some b) = true)
  ∧ extractZipConflictErrors none none = false
  ∧ (∀ (d : String) (env : CreateEnv) (fs : FS),
      createExtractZip none none d env fs = (some ⟨none, none, d, [], "", false⟩, fs)) := by
  refine ⟨fun a b => rfl, rfl, fun d env fs => rfl⟩

/-- C9: path_exists returns exists = true when os.Stat succeeds or fails
with any error other than not-exist (for example permission denied), and
returns false exactly when Stat reports the path does not exist. -/
theorem c9_path_exists_stat_errors :
    pathExistsRun .errOther = true
  ∧ pathExistsRun .errNotExist = false
  ∧ (∀ o, pathExistsRun o = false ↔ o = .errNotExist) := by
  refine ⟨rfl, rfl, ?_⟩
  intro o
  cases o <;> simp [pathExistsRun]

/-- C10 counterexample: /data lies beneath the protected path / (the
root is in the denylist), yet isProtectedPath does not match it — the
root's prefix test compares against a double separator — so Delete with
force removes the directory from disk and the resource from state; the
claim asserts no directory beneath a protected path is ever removed. -/
theorem c10_counterexample :
    ("/" ∈ protectedPaths)
  ∧ liesBeneathSpec "/data" "/" = true
  ∧ isProtectedPath "/data" = false
  ∧ localDirectoryDelete "/data" true true .isDirectory true = ⟨true, true, false⟩ := by
  decide

/-- C10 amended: for a Delete whose path exists on disk as a directory
and either equals a protected path or lies beneath a protected path other
than the root, the directory is never removed from disk — even with
force — and the operation returns early without removing the resource
from state.  (Paths lying beneath only the root are not protected.) -/
theorem c10_protected_delete_amended (p prot : String)
    (force managed removeAllOk : Bool) (hmem : prot ∈ protectedPaths)
    (h : p = prot ∨ (strEndsWithSlash prot = false ∧ liesBeneathSpec p prot = true)) :
    localDirectoryDelete p force managed .isDirectory removeAllOk
      = ⟨false, false, false⟩ := by
  have hp : isProtectedPath p = true := by
    rcases h with rfl | ⟨hs, hb⟩
    · simp only [isProtectedPath, List.any_eq_true]
      exact ⟨p, hmem, by simp⟩
    · simp only [liesBeneathSpec, hs, if_neg, Bool.and_eq_true, bne_iff_ne,
        Bool.not_eq_true, beq_eq_false_iff_ne, ne_eq] at hb
      simp only [isProtectedPath, List.any_eq_true]
      refine ⟨prot, hmem, ?_⟩
      simp only [Bool.or_eq_true]
      exact Or.inr (listPrefixOf_append_right _ _ _ hb.2)
  simp [localDirectoryDelete, hp]

/-- C10 witness: a directory beneath /etc with force set is neither
removed from disk nor from state. -/
theorem c10_protected_delete_witness :
    localDirectoryDelete "/etc/myapp" true true .isDirectory true
      = ⟨false, false, false⟩ :=
  c10_protected_delete_amended "/etc/myapp" "/etc" true true true (by decide)
    (Or.inr (by decide))

/-- Filtering away a key absent from an association list changes
nothing. -/
theorem filter_fst_ne_of_not_mem (l : List (String × String)) (p : String)
    (h : ¬ p ∈ l.map Prod.fst) : l.filter (fun pr => !(pr.1 == p)) = l := by
  induction l with
  | nil => rfl
  | cons a as ih =>
    simp only [List.map_cons, List.mem_cons] at h
    push_neg at h
    have h1 : (a.1 == p) = false := beq_eq_false_iff_ne.mpr (Ne.symm h.1)
    simp [List.filter_cons, h1, ih h.2]

/-- Filtering away an absent element changes nothing. -/
theorem filter_ne_of_not_mem (l : List String) (p : String) (h : ¬ p ∈ l) :
    l.filter (fun q => !(q == p)) = l := by
  induction l with
  | nil => rfl
  | cons a as ih =>
    simp only [List.mem_cons] at h
    push_neg at h
    have h1 : (a == p) = false := beq_eq_false_iff_ne.mpr (Ne.symm h.1)
    simp [List.filter_cons, h1, ih h.2]

/-- A list extended by one element is never a prefix of the original. -/
theorem listPrefixOf_append_single (cs : List Char) (c : Char) :
    listPrefixOf (cs ++ [c]) cs = false := by
  induction cs with
  | nil => rfl
  | cons a as ih => simp [listPrefixOf, ih]

/-- No path is strictly beneath itself. -/
theorem isUnder_self_eq_false (p : String) : isUnder p p = false :=
  listPrefixOf_append_single p.data '/'

/-- Extraction invariant: under entriesOk, running the entry loop on the
initial filesystem extended by the already-created paths adds exactly the
directory-entry paths to dirs, exactly the file-entry pairs to files, and
appends exactly the resolved entry paths to createdFiles, in order. -/
theorem extractEntries_invariant (es : List ZipEntry) (fs₀ : FS) (d : String) :
    ∀ (prevD : List String) (prevF : List (String × String)) (created : List String),
    entriesOk fs₀ d prevD prevF es = true →
    extractEntries es d ⟨fs₀.dirs ++ prevD, fs₀.files ++ prevF⟩ created
      = (⟨fs₀.dirs ++ (prevD ++ dirDest d es), fs₀.files ++ (prevF ++ fileDest d es)⟩,
         created ++ allDest d es) := by
  induction es with
  | nil =>
    intro prevD prevF created _
    simp [extractEntries, dirDest, fileDest, allDest]
  | cons e rest ih =>
    intro prevD prevF created h
    by_cases hdir : strEndsWithSlash e.name = true
    · simp only [entriesOk, if_pos hdir, Bool.and_eq_true, decide_eq_true_eq] at h
      obtain ⟨⟨⟨⟨⟨h1, h2⟩, h3⟩, h4⟩, h5⟩, hrest⟩ := h
      have step : extractZipEntry e d ⟨fs₀.dirs ++ prevD, fs₀.files ++ prevF⟩ created
          = (⟨(fs₀.dirs ++ prevD) ++ [filepathJoin d e.name], fs₀.files ++ prevF⟩,
             created ++ [filepathJoin d e.name]) := by
        simp [extractZipEntry, hdir, mkdirAll, h2, h5]
      simp only [extractEntries, step]
      rw [show (fs₀.dirs ++ prevD) ++ [filepathJoin d e.name]
            = fs₀.dirs ++ (prevD ++ [filepathJoin d e.name]) from by simp]
      rw [ih (prevD ++ [filepathJoin d e.name]) prevF _ hrest]
      simp [dirDest, fileDest, allDest, hdir]
    · simp only [entriesOk, if_neg hdir, Bool.and_eq_true, decide_eq_true_eq] at h
      obtain ⟨⟨⟨f1, f2⟩, f3⟩, hrest⟩ := h
      have step : extractZipEntry e d ⟨fs₀.dirs ++ prevD, fs₀.files ++ prevF⟩ created
          = (⟨fs₀.dirs ++ prevD,
              (fs₀.files ++ prevF) ++ [(filepathJoin d e.name, e.content)]⟩,
             created ++ [filepathJoin d e.name]) := by
        simp [extractZipEntry, hdir, mkdirAll, createFile, f1,
          filter_fst_ne_of_not_mem _ _ f3]
      simp only [extractEntries, step]
      rw [show (fs₀.files ++ prevF) ++ [(filepathJoin d e.name, e.content)]
            = fs₀.files ++ (prevF ++ [(filepathJoin d e.name, e.content)]) from by simp]
      rw [ih prevD (prevF ++ [(filepathJoin d e.name, e.content)]) _ hrest]
      simp [dirDest, fileDest, allDest, hdir]

/-- Removing a freshly created directory whose contents are gone: the
path is not a file, is the last directory, and has nothing beneath it, so
os.Remove deletes exactly it with no warning. -/
theorem removeStep_dir (fs₀ : FS) (prevD : List String)
    (prevF : List (String × String)) (p : String) (ws : List String)
    (h1 : ¬ p ∈ fs₀.dirs ++ prevD)
    (h3 : ¬ p ∈ (fs₀.files ++ prevF).map Prod.fst)
    (h4 : ∀ q ∈ (fs₀.dirs ++ prevD) ++ (fs₀.files ++ prevF).map Prod.fst,
      isUnder p q = false) :
    removeStep (⟨fs₀.dirs ++ (prevD ++ [p]), fs₀.files ++ prevF⟩, ws) p
      = (⟨fs₀.dirs ++ prevD, fs₀.files ++ prevF⟩, ws) := by
  have hmem : p ∈ fs₀.dirs ++ (prevD ++ [p]) := by simp
  have hany : ((fs₀.dirs ++ (prevD ++ [p])) ++ (fs₀.files ++ prevF).map Prod.fst).any
      (fun q => isUnder p q) = false := by
    rw [List.any_eq_false]
    intro q hq
    simp only [List.mem_append, List.mem_singleton] at hq
    rcases hq with ((hq | hq | hq) | hq)
    · simp [h4 q (List.mem_append_left _ (List.mem_append_left _ hq))]
    · simp [h4 q (List.mem_append_left _ (List.mem_append_right _ hq))]
    · subst hq
      simp [isUnder_self_eq_false]
    · simp [h4 q (List.mem_append_right _ hq)]
  have hfilter : (fs₀.dirs ++ (prevD ++ [p])).filter (fun q => !(q == p))
      = fs₀.dirs ++ prevD := by
    rw [show fs₀.dirs ++ (prevD ++ [p]) = (fs₀.dirs ++ prevD) ++ [p] from by simp]
    rw [List.filter_append, filter_ne_of_not_mem _ _ h1]
    simp
  have c1 : decide (p ∈ (fs₀.files ++ prevF).map Prod.fst) = false := decide_eq_false h3
  have c2 : decide (p ∈ fs₀.dirs ++ (prevD ++ [p])) = true := decide_eq_true hmem
  simp only [removeStep, removeResult, c1, c2]
  rw [hany]
  simp [hfilter]

/-- Removing a freshly created file: it is present exactly once, so
os.Remove deletes exactly it with no warning. -/
theorem removeStep_file (fs₀ : FS) (prevD : List String)
    (prevF : List (String × String)) (p c : String) (ws : List String)
    (h3 : ¬ p ∈ (fs₀.files ++ prevF).map Prod.fst) :
    removeStep (⟨fs₀.dirs ++ prevD, fs₀.files ++ (prevF ++ [(p, c)])⟩, ws) p
      = (⟨fs₀.dirs ++ prevD, fs₀.files ++ prevF⟩, ws) := by
  have hmem : p ∈ (fs₀.files ++ (prevF ++ [(p, c)])).map Prod.fst := by simp
  have hfilter : (fs₀.files ++ (prevF ++ [(p, c)])).filter (fun pr => !(pr.1 == p))
      = fs₀.files ++ prevF := by
    rw [show fs₀.files ++ (prevF ++ [(p, c)]) = (fs₀.files ++ prevF) ++ [(p, c)] from by simp]
    rw [List.filter_append, filter_fst_ne_of_not_mem _ _ h3]
    simp
  have c1 : decide (p ∈ (fs₀.files ++ (prevF ++ [(p, c)])).map Prod.fst) = true :=
    decide_eq_true hmem
  simp [removeStep, removeResult, c1, hfilter]

/-- Deletion invariant: under entriesOk, folding the removal step over
the created paths in reverse creation order deletes exactly what
extraction created, with no warnings. -/
theorem deleteLoop_invariant (es : List ZipEntry) (fs₀ : FS) (d : String) :
    ∀ (prevD : List String) (prevF : List (String × String)),
    entriesOk fs₀ d prevD prevF es = true →
    (allDest d es).reverse.foldl removeStep
      (⟨fs₀.dirs ++ (prevD ++ dirDest d es), fs₀.files ++ (prevF ++ fileDest d es)⟩, [])
      = (⟨fs₀.dirs ++ prevD, fs₀.files ++ prevF⟩, []) := by
  induction es with
  | nil =>
    intro prevD prevF _
    simp [allDest, dirDest, fileDest]
  | cons e rest ih =>
    intro prevD prevF h
    by_cases hdir : strEndsWithSlash e.name = true
    · simp only [entriesOk, if_pos hdir, Bool.and_eq_true, decide_eq_true_eq] at h
      obtain ⟨⟨⟨⟨⟨h1, h2⟩, h3⟩, h4⟩, h5⟩, hrest⟩ := h
      have hrec := ih (prevD ++ [filepathJoin d e.name]) prevF hrest
      have e1 : dirDest d (e :: rest) = filepathJoin d e.name :: dirDest d rest := by
        simp [dirDest, hdir]
      have e2 : fileDest d (e :: rest) = fileDest d rest := by
        simp [fileDest, hdir]
      have e3 : allDest d (e :: rest) = filepathJoin d e.name :: allDest d rest := rfl
      rw [e1, e2, e3, List.reverse_cons]
      simp only [List.foldl_append, List.foldl_cons, List.foldl_nil]
      rw [List.append_cons prevD (filepathJoin d e.name) (dirDest d rest), hrec]
      exact removeStep_dir fs₀ prevD prevF (filepathJoin d e.name) [] h1 h3 h4
    · simp only [entriesOk, if_neg hdir, Bool.and_eq_true, decide_eq_true_eq] at h
      obtain ⟨⟨⟨f1, f2⟩, f3⟩, hrest⟩ := h
      have hrec := ih prevD (prevF ++ [(filepathJoin d e.name, e.content)]) hrest
      have e1 : dirDest d (e :: rest) = dirDest d rest := by
        simp [dirDest, hdir]
      have e2 : fileDest d (e :: rest)
          = (filepathJoin d e.name, e.content) :: fileDest d rest := by
        simp [fileDest, hdir]
      have e3 : allDest d (e :: rest) = filepathJoin d e.name :: allDest d rest := rfl
      rw [e1, e2, e3, List.reverse_cons]
      simp only [List.foldl_append, List.foldl_cons, List.foldl_nil]
      rw [List.append_cons prevF (filepathJoin d e.name, e.content) (fileDest d rest), hrec]
      exact removeStep_file fs₀ prevD prevF (filepathJoin d e.name) e.content [] f3

/-- C3 amended: the round trip holds for archives whose entries each
create exactly their own resolved path — every entry is fresh and
distinct, each parent chain pre-exists or was produced by an earlier
directory entry, and no entry has pre-existing content beneath it
(entriesOk) — against a pre-existing destination directory: extracting
and then deleting via createdPaths in reverse creation order restores the
filesystem exactly, with no warnings.  The unamended claim fails because
createdPaths omits implicitly created parent directories. -/
theorem c3_roundtrip_amended (es : List ZipEntry) (d : String) (fs₀ : FS)
    (hd : d ∈ fs₀.dirs) (h : entriesOk fs₀ d [] [] es = true) :
    deleteCreatedZip (validateAndExtractZip es d fs₀).2.1
      (validateAndExtractZip es d fs₀).1 = (fs₀, []) := by
  have hpres : pathPresent fs₀ d = true := by simp [pathPresent, hd]
  have inv := extractEntries_invariant es fs₀ d [] [] [] h
  simp only [List.append_nil, List.nil_append] at inv
  have hval : validateAndExtractZip es d fs₀
      = (⟨fs₀.dirs ++ dirDest d es, fs₀.files ++ fileDest d es⟩, allDest d es, false) := by
    simp [validateAndExtractZip, hpres, inv]
  have del := deleteLoop_invariant es fs₀ d [] [] h
  simp only [List.append_nil, List.nil_append] at del
  rw [hval]
  simpa [deleteCreatedZip] using del

/-- C3 witness: the amended round trip at the two-entry archive of the
scenario, against a pre-existing destination. -/
theorem c3_roundtrip_witness :
    deleteCreatedZip
      (validateAndExtractZip [⟨"a/", ""⟩, ⟨"a/b.txt", "hi"⟩] "/tmp/x"
        ⟨["/", "/tmp", "/tmp/x"], []⟩).2.1
      (validateAndExtractZip [⟨"a/", ""⟩, ⟨"a/b.txt", "hi"⟩] "/tmp/x"
        ⟨["/", "/tmp", "/tmp/x"], []⟩).1
      = (⟨["/", "/tmp", "/tmp/x"], []⟩, []) :=
  c3_roundtrip_amended _ _ _ (by decide) (by decide)

end Utilities
